import Mathlib

/-!
Verification development for the Arenna RTSP multi-camera viewer
(`main.py`).  The definitions below are a shallow embedding of the parts of
the program the claims talk about: the per-channel capture thread
(`CaptureThread`), the global stream registry (`StreamState`), the two
mosaic compositors (`mosaic_getter_row`, `mosaic_getter_grid`) and the
MJPEG stream generator (`mjpeg_generator`).  Image buffers are modelled as
pixel maps with explicit dimensions; numpy slice assignment becomes the
`blit` combinator; wall-clock times are rationals; the Flask/HTTP layer is
out of scope.
-/

/-- A decoded video frame: a pixel grid of `height` rows by `width` columns.
`px y x` is the pixel value at row `y`, column `x` (blank canvases are all
zero).  Text drawn onto a frame by `cv2.putText` is modelled by the
`overlays` list of drawn strings; `putText` keeps the geometry and the base
pixel grid. -/
structure Frame where
  height : Nat
  width : Nat
  px : Nat → Nat → Nat
  overlays : List String

/-- Model of `np.zeros((h, w, 3), np.uint8)`: an all-black frame with no text. -/
def zerosFrame (h w : Nat) : Frame :=
  { height := h, width := w, px := fun _ _ => 0, overlays := [] }

/-- Model of `cv2.putText(img, text, ...)`: records the drawn string, keeps the
geometry and the underlying pixel grid. -/
def putText (f : Frame) (text : String) : Frame :=
  { f with overlays := f.overlays ++ [text] }

/-- Model of `cv2.resize(img, (w, h))`: resize to exactly `w` columns by `h`
rows.  Nearest-neighbour sampling stands in for `INTER_AREA`; the claims
only depend on the output geometry and on which source frame supplies each
region. -/
def cvResize (f : Frame) (w h : Nat) : Frame :=
  { height := h, width := w,
    px := fun y x => f.px (y * f.height / h) (x * f.width / w),
    overlays := f.overlays }

/-- One destructive numpy slice assignment
`canvas[y0:y0+f.height, x0:x0+f.width] = f`, as a transformation of the
canvas pixel map. -/
def blit (base : Nat → Nat → Nat) (f : Frame) (y0 x0 : Nat) : Nat → Nat → Nat :=
  fun y x =>
    if y0 ≤ y ∧ y < y0 + f.height ∧ x0 ≤ x ∧ x < x0 + f.width then
      f.px (y - y0) (x - x0)
    else base y x

/-- The write loop of `mosaic_getter_row`: each frame is blitted at the running
horizontal offset `x0` (writes of later frames are applied on top, as in the
Python loop). -/
def rowPlace : List Frame → Nat → (Nat → Nat → Nat) → (Nat → Nat → Nat)
  | [], _, base => base
  | f :: rest, x0, base => rowPlace rest (x0 + f.width) (blit base f 0 x0)

/-- One call of the `_getter` returned by `mosaic_getter_row(getters)`, applied
to the results of calling every getter once
(`frames = [g() for g in getters]`, then dropping the `None` results). -/
def mosaic_getter_row (results : List (Option Frame)) : Option Frame :=
  let frames := results.filterMap id
  if frames.isEmpty then none
  else
    some { height := (frames.map Frame.height).foldl max 0,
           width := (frames.map Frame.width).sum,
           px := rowPlace frames 0 (fun _ _ => 0),
           overlays := [] }

/-- The cell width `cell_w = int(cell_h * 16/9)` of `mosaic_getter_grid`:
Python `int()` truncation of the nonnegative product, i.e. floor division. -/
def mosaicCellW (cell_h : Nat) : Nat := cell_h * 16 / 9

/-- The row count `rows = math.ceil(len(frames) / cols)` of
`mosaic_getter_grid`. -/
def gridRows (n cols : Nat) : Nat := (⌈(n : ℚ) / (cols : ℚ)⌉).toNat

/-- The write loop of `mosaic_getter_grid`: the frame at running index `i`
is resized to the cell size and written to grid cell `(i / cols, i % cols)`. -/
def gridPlace (cols cell_h cell_w : Nat) :
    List Frame → Nat → (Nat → Nat → Nat) → (Nat → Nat → Nat)
  | [], _, base => base
  | f :: rest, i, base =>
      gridPlace cols cell_h cell_w rest (i + 1)
        (blit base (cvResize f cell_w cell_h) (i / cols * cell_h) (i % cols * cell_w))

/-- One call of the `_getter` returned by
`mosaic_getter_grid(getters, cols, cell_h)`: a `None` result is replaced by a
blank `(cell_h, cell_w)` cell before layout, then every cell frame is resized
to `(cell_w, cell_h)` and placed in reading order. -/
def mosaic_getter_grid (results : List (Option Frame)) (cols : Nat) (cell_h : Nat) :
    Option Frame :=
  let cell_w := mosaicCellW cell_h
  let frames := results.map (fun o => o.getD (zerosFrame cell_h cell_w))
  if frames.isEmpty then none
  else
    some { height := gridRows frames.length cols * cell_h,
           width := cols * cell_w,
           px := gridPlace cols cell_h cell_w frames 0 (fun _ _ => 0),
           overlays := [] }

/-- Modelled from the spec for comparison with `mosaicCellW`: the grid cell
width the spec prescribes, `round(cell_height * 16/9)` (nearest integer). -/
def specCellW (cell_h : Nat) : ℤ := round ((cell_h : ℚ) * 16 / 9)

/-- One iteration of the `while True` loop of `mjpeg_generator`, as a function
of what `get_bgr_frame_fn()` returned and whether `cv2.imencode` succeeded:
the first component tells whether a multipart chunk was yielded this
iteration, the second is the duration passed to `time.sleep` at its end
(`0.03` when no frame was available, no sleep when encoding failed and the
loop `continue`s, `max(0, 1.0/fps)` after a yield). -/
def mjpegIteration (frame : Option Frame) (encodeOk : Bool) (fps : ℚ) : Bool × ℚ :=
  match frame with
  | none => (false, 3 / 100)
  | some _ => if encodeOk then (true, max 0 (1 / fps)) else (false, 0)

/-- Modelled from the spec for comparison with `mjpegIteration`: the pacing
sleep the spec prescribes after a yield, `max(0, 1/fps - elapsed)` where
`elapsed` is the time spent producing the frame. -/
def spec_pacing_sleep (fps elapsed : ℚ) : ℚ := max 0 (1 / fps - elapsed)

/-- Per-iteration environment of the `CaptureThread.run` loop: `readResult` is
what `self.cap.read()` delivers when a usable handle exists (`none` for a
failed or undecodable read), `tCheck` and `tRecord` are the values of the two
`time.time()` calls on the failure path, and `openResult` tells whether
`self._open()` leaves a usable handle. -/
structure CapEnv where
  readResult : Option Frame
  tCheck : ℚ
  tRecord : ℚ
  openResult : Bool

/-- Mutable state of one `CaptureThread`, together with its construction-time
configuration.  `capOpen` models `self.cap` being a usable handle; the RTSP
URL string is built by the excluded web-layer helper and not modelled. -/
structure CaptureModel where
  label : String
  target_h : Nat
  reconnect_delay : ℚ
  frame : Option Frame
  stop_flag : Bool
  capOpen : Bool
  last_try : ℚ

/-- Placeholder frame synthesized on a failed read:
`np.zeros((self.target_h, self.target_h, 3))` with the
`f"{self.label} (reconectando...)"` text drawn on it (the spec renders the
Portuguese string as "(reconnecting...)"). -/
def placeholderFrame (label : String) (h : Nat) : Frame :=
  putText (zerosFrame h h) (label ++ " (reconectando...)")

/-- Model of `CaptureThread._resize_h`: aspect-preserving resize to height `h`
(`r = h / max(1, img.shape[0])`, new width `int(img.shape[1] * r)`). -/
def resize_h (img : Frame) (h : Nat) : Frame :=
  cvResize img (img.width * h / max 1 img.height) h

/-- One iteration of the `while not self.stop_flag` loop of
`CaptureThread.run`: a failed read (no handle, read error, or `None` frame)
reopens the connection when the cool-down has elapsed since `last_try`
(recording the new attempt time whatever `_open` achieves) and always stores
the placeholder frame; a successful read stores the resized, labelled frame. -/
def capture_run_step (t : CaptureModel) (env : CapEnv) : CaptureModel :=
  if t.stop_flag then t
  else
    match (if t.capOpen then env.readResult else none) with
    | none =>
        let t1 :=
          if t.reconnect_delay ≤ env.tCheck - t.last_try then
            { t with capOpen := env.openResult, last_try := env.tRecord }
          else t
        { t1 with frame := some (placeholderFrame t.label t.target_h) }
    | some fr =>
        { t with frame := some (putText (resize_h fr t.target_h) t.label) }

/-- A freshly constructed `CaptureThread(name=f"CH{ch}", ...)` as registered
by `start_streams` (label is the channel tag, handle not yet opened,
`reconnect_delay_s=2.0` default). -/
def mkCaptureThread (ch : Int) (target_height : Nat) : CaptureModel :=
  { label := "CH" ++ toString ch, target_h := target_height,
    reconnect_delay := 2, frame := none, stop_flag := false,
    capOpen := false, last_try := 0 }

/-- Result of Python `int(x)` on one element of a channels collection: either
it converts to an integer or it raises. -/
inductive PyVal
  | intLike (n : Int)
  | nonIntLike

/-- Dynamic type of the `channels` argument passed to `start_streams`: an
`int`, a `list`/`tuple`/`set` of elements, or any other type. -/
inductive ChannelsArg
  | ofInt (n : Int)
  | ofSeq (xs : List PyVal)
  | other

/-- Model of `tuple(int(x) for x in chs)`: fails at the first element that
`int()` rejects. -/
def coerceSeq : List PyVal → Except String (List Int)
  | [] => Except.ok []
  | PyVal.intLike n :: rest => (coerceSeq rest).map (fun l => n :: l)
  | PyVal.nonIntLike :: _ => Except.error "invalid literal for int()"

/-- Model of `_coerce_channels(chs)`: an `int` becomes a one-element tuple, a
`list`/`tuple`/`set` is converted elementwise, anything else raises
`TypeError`. -/
def coerce_channels : ChannelsArg → Except String (List Int)
  | ChannelsArg.ofInt n => Except.ok [n]
  | ChannelsArg.ofSeq xs => coerceSeq xs
  | ChannelsArg.other => Except.error "channels deve ser int, list, tuple ou set"

/-- The `StreamState.config` dictionary. -/
structure Config where
  ip : String
  user : String
  password : String
  channels : List Int
  subtype : Nat
  target_height : Nat

/-- The fields of the global `StreamState` object: the two channel-keyed
registries (Python dicts, modelled as insertion-ordered association lists)
and the configuration snapshot.  A getter entry `t.get_frame` is identified
by the capture thread it is bound to. -/
structure StreamStateM where
  threads : List (Int × CaptureModel)
  getters : List (Int × CaptureModel)
  config : Config

/-- Python dict assignment `d[k] = v`: overwrite in place if the key exists,
else append. -/
def dictInsert {α : Type} : List (Int × α) → Int → α → List (Int × α)
  | [], k, v => [(k, v)]
  | (k', v') :: rest, k, v =>
      if k' = k then (k, v) :: rest else (k', v') :: dictInsert rest k v

/-- Python dict lookup `d.get(k)`. -/
def dictGet {α : Type} : List (Int × α) → Int → Option α
  | [], _ => none
  | (k', v') :: rest, k => if k' = k then some v' else dictGet rest k

/-- The state built by `StreamState.__init__`. -/
def StreamState.init : StreamStateM :=
  { threads := [], getters := [],
    config := { ip := "192.168.0.18", user := "admin", password := "arenna@123",
                channels := [1, 2], subtype := 0, target_height := 360 } }

/-- The `for ch in channels` loop at the end of `start_streams`: each channel
gets a fresh started `CaptureThread` recorded in both registries. -/
def registerLoop (target_height : Nat) :
    List Int → List (Int × CaptureModel) × List (Int × CaptureModel)
      → List (Int × CaptureModel) × List (Int × CaptureModel)
  | [], d => d
  | ch :: rest, d =>
      registerLoop target_height rest
        (dictInsert d.1 ch (mkCaptureThread ch target_height),
         dictInsert d.2 ch (mkCaptureThread ch target_height))

/-- Model of one call of `StreamState.start_streams`: the channel coercion
runs before the lock is taken and before any mutation, so a coercion failure
returns the state unchanged together with the raised message.  On success the
old threads are stop-signalled and dropped (`stop_all_locked`, then
`threads.clear()` / `getters.clear()`; their still-running loops are modelled
by `runSession` below), the config is replaced, and both registries are
rebuilt from the freshly started threads. -/
def start_streams_run (st : StreamStateM) (ip user password : String)
    (channels : ChannelsArg) (subtype target_height : Nat) :
    StreamStateM × Option String :=
  match coerce_channels channels with
  | Except.error e => (st, some e)
  | Except.ok chans =>
      let reg := registerLoop target_height chans ([], [])
      ({ threads := reg.1, getters := reg.2,
         config := { ip := ip, user := user, password := password,
                     channels := chans, subtype := subtype,
                     target_height := target_height } }, none)

/-- The externally visible effects of a successful `start_streams` call, in
program order: `stop_all_locked` signals each old thread (`t.stop()` sets the
flag and releases the handle), the registries are cleared, the config is
replaced, and each new thread is started.  `start_streams` contains no
`join`-like wait on the old threads. -/
inductive SessionOp
  | signalStop (ch : Int)
  | clearThreads
  | clearGetters
  | updateConfig
  | startActor (ch : Int)

/-- The op sequence `start_streams` executes for old channels `oldChs` and new
channels `newChs`. -/
def start_streams_ops (oldChs newChs : List Int) : List SessionOp :=
  oldChs.map SessionOp.signalStop
    ++ [SessionOp.clearThreads, SessionOp.clearGetters, SessionOp.updateConfig]
    ++ newChs.map SessionOp.startActor

/-- Scheduling-relevant state of one old capture thread: its channel, whether
`stop()` has set its flag, and whether its `run` loop has observed the flag
and exited. -/
structure ActorSt where
  ch : Int
  stop_flag : Bool
  exited : Bool

/-- The concurrent system during a `start_streams` call: the old capture
threads (removed from the registry but with OS threads still alive) and the
channels whose new thread has been started. -/
structure SessionSys where
  oldActors : List ActorSt
  startedNew : List Int

/-- System state at the start of a `start_streams` call whose previous
configuration ran `oldChs`: every old thread is live and unsignalled. -/
def initSys (oldChs : List Int) : SessionSys :=
  { oldActors := oldChs.map (fun ch => { ch := ch, stop_flag := false, exited := false }),
    startedNew := [] }

/-- One pass of an old capture thread through the top of its `run` loop:
`while not self.stop_flag` — once the flag is observed, the loop exits. -/
def actorLoopStep (a : ActorSt) : ActorSt :=
  if a.stop_flag then { a with exited := true } else a

/-- Effect of `t.stop()` on the thread of channel `ch`. -/
def signalActor (ch : Int) (a : ActorSt) : ActorSt :=
  if a.ch = ch then { a with stop_flag := true } else a

/-- Effect of one controller op on the system. -/
def applySessionOp (s : SessionSys) : SessionOp → SessionSys
  | SessionOp.signalStop ch => { s with oldActors := s.oldActors.map (signalActor ch) }
  | SessionOp.clearThreads => s
  | SessionOp.clearGetters => s
  | SessionOp.updateConfig => s
  | SessionOp.startActor ch => { s with startedNew := s.startedNew ++ [ch] }

/-- Interleaved execution of the controller ops against the old threads:
`sched i = true` when the OS runs the old capture threads for one loop
iteration just before controller op number `i`.  The second component records
whether some new thread was started while an old thread had not even been
told to stop. -/
def runSession (sched : Nat → Bool) : Nat → SessionSys → List SessionOp → SessionSys × Bool
  | _, s, [] => (s, false)
  | i, s, op :: rest =>
      let s1 := if sched i then { s with oldActors := s.oldActors.map actorLoopStep } else s
      let bad :=
        match op with
        | SessionOp.startActor _ => s1.oldActors.any (fun a => !a.stop_flag)
        | _ => false
      let r := runSession sched (i + 1) (applySessionOp s1 op) rest
      (r.1, bad || r.2)

/-- Sample frames used to instantiate the theorems below at concrete inputs. -/
def demoFrame : Frame := { height := 2, width := 2, px := fun _ _ => 5, overlays := [] }

/-- Sample 200-by-100 frame. -/
def frameA : Frame := { height := 200, width := 100, px := fun _ _ => 1, overlays := [] }

/-- Sample 300-by-150 frame. -/
def frameB : Frame := { height := 300, width := 150, px := fun _ _ => 2, overlays := [] }

/-- Sample 5-by-5 frame. -/
def frameE : Frame := { height := 5, width := 5, px := fun _ _ => 7, overlays := [] }

theorem rowPlace_out (fs : List Frame) (x0 : Nat) (base : Nat → Nat → Nat)
    (y X : Nat) (hX : X < x0) : rowPlace fs x0 base y X = base y X := by
  induction fs generalizing x0 base with
  | nil => rfl
  | cons f rest ih =>
      have h1 : X < x0 + f.width := lt_of_lt_of_le hX (Nat.le_add_right _ _)
      rw [rowPlace, ih (x0 + f.width) _ h1]
      have hmiss : ¬ (0 ≤ y ∧ y < 0 + f.height ∧ x0 ≤ X ∧ X < x0 + f.width) := by
        rintro ⟨-, -, h, -⟩; omega
      simp only [blit]
      rw [if_neg hmiss]

/-- Characterization of the row canvas inside the horizontal band of frame
`i`: the frame's own pixels below its height, the untouched base above it. -/
theorem rowPlace_in_band (fs : List Frame) (x0 : Nat) (base : Nat → Nat → Nat)
    (i : Nat) (hi : i < fs.length) (y x : Nat)
    (hx : x < (fs.get ⟨i, hi⟩).width) :
    rowPlace fs x0 base y (x0 + ((fs.take i).map Frame.width).sum + x)
      = if y < (fs.get ⟨i, hi⟩).height then (fs.get ⟨i, hi⟩).px y x
        else base y (x0 + ((fs.take i).map Frame.width).sum + x) := by
  induction fs generalizing x0 base i with
  | nil => exact absurd hi (by simp)
  | cons f rest ih =>
      cases i with
      | zero =>
          have hget : (f :: rest).get ⟨0, hi⟩ = f := rfl
          rw [hget] at hx ⊢
          simp only [List.take_zero, List.map_nil, List.sum_nil, Nat.add_zero]
          rw [rowPlace, rowPlace_out rest (x0 + f.width) _ y (x0 + x) (by omega)]
          simp only [blit]
          by_cases hy : y < f.height
          · rw [if_pos hy, if_pos (show 0 ≤ y ∧ y < 0 + f.height ∧ x0 ≤ x0 + x ∧
                x0 + x < x0 + f.width by omega)]
            have h2 : x0 + x - x0 = x := by omega
            rw [Nat.sub_zero, h2]
          · rw [if_neg hy, if_neg (show ¬ (0 ≤ y ∧ y < 0 + f.height ∧ x0 ≤ x0 + x ∧
                x0 + x < x0 + f.width) from by rintro ⟨-, hh, -, -⟩; omega)]
      | succ j =>
          have hj : j < rest.length := by simpa using hi
          have hget : (f :: rest).get ⟨j + 1, hi⟩ = rest.get ⟨j, hj⟩ := rfl
          rw [hget] at hx ⊢
          have hsum : x0 + ((( f :: rest).take (j+1)).map Frame.width).sum + x
              = (x0 + f.width) + ((rest.take j).map Frame.width).sum + x := by
            simp only [List.take_succ_cons, List.map_cons, List.sum_cons]
            omega
          rw [rowPlace, hsum]
          rw [ih (x0 + f.width) (blit base f 0 x0) j hj hx]
          by_cases hy : y < (rest.get ⟨j, hj⟩).height
          · rw [if_pos hy, if_pos hy]
          · rw [if_neg hy, if_neg hy]
            simp only [blit]
            rw [if_neg (show ¬ (0 ≤ y ∧ y < 0 + f.height ∧
                x0 ≤ x0 + f.width + ((rest.take j).map Frame.width).sum + x ∧
                x0 + f.width + ((rest.take j).map Frame.width).sum + x < x0 + f.width)
              from by rintro ⟨-, -, -, h⟩; omega)]

/-- C5: for every list of frame-accessor results with at least one available
frame, the row compositor yields a canvas whose height is the maximum height
of the available frames, whose width is the sum of their widths, with the
available frames concatenated left-to-right in list order at their native
sizes (`None` results omitted, not padded); inside frame `i`'s horizontal
band, rows at or below the frame's own height show its pixels and rows
beyond it stay blank. -/
theorem mosaic_row_geometry (results : List (Option Frame)) (frames : List Frame)
    (hf : results.filterMap id = frames) (hne : frames ≠ []) :
    ∃ c, mosaic_getter_row results = some c ∧
      c.height = (frames.map Frame.height).foldl max 0 ∧
      c.width = (frames.map Frame.width).sum ∧
      ∀ i (hi : i < frames.length) y x,
        x < (frames.get ⟨i, hi⟩).width →
        c.px y (((frames.take i).map Frame.width).sum + x) =
          if y < (frames.get ⟨i, hi⟩).height then (frames.get ⟨i, hi⟩).px y x else 0 := by
  have hemp : frames.isEmpty = false := by
    cases frames with
    | nil => exact absurd rfl hne
    | cons a l => rfl
  have hmain : mosaic_getter_row results
      = some { height := (frames.map Frame.height).foldl max 0,
               width := (frames.map Frame.width).sum,
               px := rowPlace frames 0 (fun _ _ => 0),
               overlays := [] } := by
    simp only [mosaic_getter_row, hf, hemp]
    rfl
  refine ⟨_, hmain, rfl, rfl, ?_⟩
  intro i hi y x hx
  have h := rowPlace_in_band frames 0 (fun _ _ => 0) i hi y x hx
  simpa using h

/-- Witness for `mosaic_row_geometry`: accessors returning a 200-by-100 and a
300-by-150 frame give a 300-by-250 canvas, with the second frame starting at
column 100 and the first band blank below row 200. -/
theorem mosaic_row_geometry_witness :
    ∃ c, mosaic_getter_row [some frameA, some frameB] = some c ∧
      c.height = 300 ∧ c.width = 250 ∧ c.px 0 100 = 2 ∧ c.px 250 0 = 0 := by
  obtain ⟨c, hc, hh, hw, hplace⟩ :=
    mosaic_row_geometry [some frameA, some frameB] [frameA, frameB] rfl
      (List.cons_ne_nil _ _)
  refine ⟨c, hc, ?_, ?_, ?_, ?_⟩
  · rw [hh]; rfl
  · rw [hw]; rfl
  · have h := hplace 1 (by simp) 0 0 (by norm_num [frameB])
    simpa [frameA, frameB] using h
  · have h := hplace 0 (by simp) 250 0 (by norm_num [frameA])
    simpa [frameA, frameB] using h

theorem cvResize_height (f : Frame) (w h : Nat) : (cvResize f w h).height = h := rfl

theorem cvResize_width (f : Frame) (w h : Nat) : (cvResize f w h).width = w := rfl

/-- Helper: two vertical (or horizontal) bands of size `cell` can only overlap
at an in-band offset `y < cell` if they are the same band. -/
theorem band_eq_of_hit (a b cell y : Nat) (hy : y < cell)
    (h1 : b * cell ≤ a * cell + y) (h2 : a * cell + y < b * cell + cell) : a = b := by
  rcases Nat.lt_trichotomy a b with h | h | h
  · exfalso
    have hle : (a + 1) * cell ≤ b * cell := mul_le_mul_right' (Nat.succ_le_of_lt h) cell
    have : a * cell + y < (a + 1) * cell := by
      calc a * cell + y < a * cell + cell := by omega
        _ = (a + 1) * cell := by ring
    omega
  · exact h
  · exfalso
    have hle : (b + 1) * cell ≤ a * cell := mul_le_mul_right' (Nat.succ_le_of_lt h) cell
    have : b * cell + cell = (b + 1) * cell := by ring
    omega

/-- Helper: a point strictly inside grid cell `i` lies inside cell `m` only
when `m = i`. -/
theorem cell_index_eq (cols cell_h cell_w i m y x : Nat)
    (hy : y < cell_h) (hx : x < cell_w)
    (h1 : m / cols * cell_h ≤ i / cols * cell_h + y)
    (h2 : i / cols * cell_h + y < m / cols * cell_h + cell_h)
    (h3 : m % cols * cell_w ≤ i % cols * cell_w + x)
    (h4 : i % cols * cell_w + x < m % cols * cell_w + cell_w) : m = i := by
  have hdiv : i / cols = m / cols := band_eq_of_hit _ _ _ y hy h1 h2
  have hmod : i % cols = m % cols := band_eq_of_hit _ _ _ x hx h3 h4
  calc m = cols * (m / cols) + m % cols := (Nat.div_add_mod m cols).symm
    _ = cols * (i / cols) + i % cols := by rw [hdiv, hmod]
    _ = i := Nat.div_add_mod i cols

theorem gridPlace_out (cols cell_h cell_w : Nat) (fs : List Frame) (i0 : Nat)
    (base : Nat → Nat → Nat) (Y X : Nat)
    (hmiss : ∀ j, i0 ≤ j → j < i0 + fs.length →
      ¬ (j / cols * cell_h ≤ Y ∧ Y < j / cols * cell_h + cell_h ∧
         j % cols * cell_w ≤ X ∧ X < j % cols * cell_w + cell_w)) :
    gridPlace cols cell_h cell_w fs i0 base Y X = base Y X := by
  induction fs generalizing i0 base with
  | nil => rfl
  | cons f rest ih =>
      have hlen : (f :: rest).length = rest.length + 1 := rfl
      rw [gridPlace, ih (i0 + 1) _ (fun j h1 h2 => hmiss j (by omega) (by omega))]
      have h0 := hmiss i0 (le_refl _) (by omega)
      simp only [blit, cvResize_height, cvResize_width]
      rw [if_neg h0]

/-- Characterization of the grid canvas inside cell `j` (counting from the
running start index `i0`): the pixels of the resized frame `j`. -/
theorem gridPlace_get (cols cell_h cell_w : Nat) (fs : List Frame) (i0 : Nat)
    (base : Nat → Nat → Nat) (j : Nat) (hj : j < fs.length)
    (y x : Nat) (hy : y < cell_h) (hx : x < cell_w) :
    gridPlace cols cell_h cell_w fs i0 base
        ((i0 + j) / cols * cell_h + y) ((i0 + j) % cols * cell_w + x)
      = (cvResize (fs.get ⟨j, hj⟩) cell_w cell_h).px y x := by
  induction fs generalizing i0 base j with
  | nil => exact absurd hj (by simp)
  | cons f rest ih =>
      cases j with
      | zero =>
          simp only [Nat.add_zero]
          have hget : (f :: rest).get ⟨0, hj⟩ = f := rfl
          rw [hget]
          have hmiss : ∀ m, i0 + 1 ≤ m → m < (i0 + 1) + rest.length →
              ¬ (m / cols * cell_h ≤ i0 / cols * cell_h + y ∧
                 i0 / cols * cell_h + y < m / cols * cell_h + cell_h ∧
                 m % cols * cell_w ≤ i0 % cols * cell_w + x ∧
                 i0 % cols * cell_w + x < m % cols * cell_w + cell_w) := by
            intro m h1 h2 hcond
            have : m = i0 :=
              cell_index_eq cols cell_h cell_w i0 m y x hy hx
                hcond.1 hcond.2.1 hcond.2.2.1 hcond.2.2.2
            omega
          rw [gridPlace, gridPlace_out cols cell_h cell_w rest (i0 + 1) _ _ _ hmiss]
          simp only [blit, cvResize_height, cvResize_width]
          rw [if_pos ⟨Nat.le_add_right _ _, by omega, Nat.le_add_right _ _, by omega⟩]
          rw [Nat.add_sub_cancel_left, Nat.add_sub_cancel_left]
      | succ k =>
          have hk : k < rest.length := by simpa using hj
          have hget : (f :: rest).get ⟨k + 1, hj⟩ = rest.get ⟨k, hk⟩ := rfl
          rw [hget]
          have hidx : i0 + (k + 1) = (i0 + 1) + k := by omega
          rw [gridPlace, hidx]
          exact ih (i0 + 1) _ k hk

/-- Helper: a grid laid out from all-blank frames over a blank base stays
blank everywhere. -/
theorem gridPlace_zero (cols cell_h cell_w : Nat) (fs : List Frame) (i0 : Nat)
    (base : Nat → Nat → Nat) (hfs : ∀ f ∈ fs, ∀ y x, f.px y x = 0)
    (hbase : ∀ y x, base y x = 0) (Y X : Nat) :
    gridPlace cols cell_h cell_w fs i0 base Y X = 0 := by
  induction fs generalizing i0 base with
  | nil => exact hbase Y X
  | cons f rest ih =>
      rw [gridPlace]
      refine ih (i0 + 1) _ (fun g hg => hfs g (List.mem_cons_of_mem _ hg)) ?_
      intro y x
      simp only [blit]
      split
      · exact hfs f (List.mem_cons_self _ _) _ _
      · exact hbase y x

theorem gridRows_cast (n cols : Nat) :
    (gridRows n cols : ℤ) = ⌈(n : ℚ) / (cols : ℚ)⌉ := by
  have h : (0 : ℤ) ≤ ⌈(n : ℚ) / (cols : ℚ)⌉ := Int.ceil_nonneg (by positivity)
  simpa [gridRows] using Int.toNat_of_nonneg h

/-- C4 counterexample: at `cell_h = 100` the code computes
`int(100 * 16/9) = 177` while `round(100 * 16/9) = 178`, so the cell width is
not the nearest integer to `cell_h * 16/9`. -/
theorem mosaic_cell_width_not_round_cex :
    (mosaicCellW 100 : ℤ) ≠ specCellW 100 ∧
      mosaicCellW 100 = 177 ∧ specCellW 100 = 178 := by
  have h1 : mosaicCellW 100 = 177 := rfl
  have h2 : specCellW 100 = 178 := by
    rw [specCellW, round_eq]
    norm_num
  exact ⟨by rw [h1, h2]; norm_num, h1, h2⟩

/-- C4 amended: the grid compositor computes its cell width as the floor of
`cell_h * 16/9` (Python `int()` truncation of a nonnegative float), not the
nearest integer. -/
theorem mosaic_cell_width_floor (cell_h : Nat) :
    (mosaicCellW cell_h : ℤ) = ⌊((cell_h : ℚ) * 16) / 9⌋ := by
  have h1 : ((cell_h : ℚ) * 16) / 9 = ((cell_h * 16 : ℕ) : ℚ) / ((9 : ℕ) : ℚ) := by
    push_cast
    ring
  rw [mosaicCellW, h1, ← Int.natCast_floor_eq_floor (by positivity), Nat.floor_div_eq_div]

/-- Helper: unfolding of one grid-compositor call on a non-empty input. -/
theorem mosaic_getter_grid_eq (results : List (Option Frame)) (cols cell_h : Nat)
    (hne : results ≠ []) :
    mosaic_getter_grid results cols cell_h
      = some { height := gridRows (results.map
                 (fun o => o.getD (zerosFrame cell_h (mosaicCellW cell_h)))).length cols * cell_h,
               width := cols * mosaicCellW cell_h,
               px := gridPlace cols cell_h (mosaicCellW cell_h)
                       (results.map (fun o => o.getD (zerosFrame cell_h (mosaicCellW cell_h))))
                       0 (fun _ _ => 0),
               overlays := [] } := by
  cases results with
  | nil => exact absurd rfl hne
  | cons r rs => rfl

/-- C3 counterexample: with an empty accessor list the grid compositor
returns `None` — it does not produce the `0`-row, `cols * cell_w`-column
canvas the claim asks for at `n = 0` (here `cols = 2`, `cell_h = 9`). -/
theorem mosaic_grid_empty_input_cex :
    mosaic_getter_grid ([] : List (Option Frame)) 2 9 = none := rfl

/-- C3 amended: for every NON-EMPTY list of accessor results (an empty list
yields `None` — see the counterexample), every `cols ≥ 1` and every `cell_h`,
the grid canvas has exactly `ceil(n/cols) * cell_h` rows and `cols * cell_w`
columns; a missing source is replaced by a blank `(cell_h, cell_w)` cell;
every source frame is resized to exactly `(cell_w, cell_h)` whatever its
native size; frame `i` occupies the reading-order cell `(i / cols, i % cols)`;
and grid cells past index `n - 1` stay blank. -/
theorem mosaic_grid_geometry (results : List (Option Frame)) (cols cell_h : Nat)
    (frames : List Frame) (cell_w : Nat)
    (hcw : mosaicCellW cell_h = cell_w)
    (hframes : results.map (fun o => o.getD (zerosFrame cell_h cell_w)) = frames)
    (hcols : 1 ≤ cols) (hne : results ≠ []) :
    ∃ c, mosaic_getter_grid results cols cell_h = some c ∧
      frames.length = results.length ∧
      c.height = gridRows results.length cols * cell_h ∧
      c.width = cols * cell_w ∧
      (gridRows results.length cols : ℤ) = ⌈(results.length : ℚ) / (cols : ℚ)⌉ ∧
      (∀ f : Frame, (cvResize f cell_w cell_h).height = cell_h ∧
        (cvResize f cell_w cell_h).width = cell_w) ∧
      (∀ i (hi : i < results.length) (hi2 : i < frames.length),
        frames.get ⟨i, hi2⟩ = (results.get ⟨i, hi⟩).getD (zerosFrame cell_h cell_w)) ∧
      (∀ i (hi : i < frames.length) y x, y < cell_h → x < cell_w →
        c.px (i / cols * cell_h + y) (i % cols * cell_w + x)
          = (cvResize (frames.get ⟨i, hi⟩) cell_w cell_h).px y x) ∧
      (∀ i (hi : i < results.length) (hi2 : i < frames.length),
        results.get ⟨i, hi⟩ = none → ∀ y x, y < cell_h → x < cell_w →
          c.px (i / cols * cell_h + y) (i % cols * cell_w + x) = 0) ∧
      (∀ m, results.length ≤ m → ∀ y x, y < cell_h → x < cell_w →
        c.px (m / cols * cell_h + y) (m % cols * cell_w + x) = 0) := by
  have hlen : frames.length = results.length := by
    rw [← hframes, List.length_map]
  have hmain := mosaic_getter_grid_eq results cols cell_h hne
  rw [hcw, hframes] at hmain
  have hmap : ∀ i (hi : i < results.length) (hi2 : i < frames.length),
      frames.get ⟨i, hi2⟩ = (results.get ⟨i, hi⟩).getD (zerosFrame cell_h cell_w) := by
    intro i hi hi2
    subst hframes
    simp
  have hplace : ∀ i (hi : i < frames.length) y x, y < cell_h → x < cell_w →
      gridPlace cols cell_h cell_w frames 0 (fun _ _ => 0)
          (i / cols * cell_h + y) (i % cols * cell_w + x)
        = (cvResize (frames.get ⟨i, hi⟩) cell_w cell_h).px y x := by
    intro i hi y x hy hx
    have h := gridPlace_get cols cell_h cell_w frames 0 (fun _ _ => 0) i hi y x hy hx
    simpa using h
  have hout : ∀ m, results.length ≤ m → ∀ y x, y < cell_h → x < cell_w →
      gridPlace cols cell_h cell_w frames 0 (fun _ _ => 0)
        (m / cols * cell_h + y) (m % cols * cell_w + x) = 0 := by
    intro m hm y x hy hx
    exact gridPlace_out cols cell_h cell_w frames 0 _ _ _
      (by
        intro j h1 h2 hcond
        have hj : j = m :=
          cell_index_eq cols cell_h cell_w m j y x hy hx
            hcond.1 hcond.2.1 hcond.2.2.1 hcond.2.2.2
        omega)
  refine ⟨_, hmain, hlen, ?_, rfl, ?_, fun f => ⟨rfl, rfl⟩, hmap, hplace, ?_, hout⟩
  · show gridRows frames.length cols * cell_h = gridRows results.length cols * cell_h
    rw [hlen]
  · rw [← hlen]
    exact gridRows_cast _ _
  · intro i hi hi2 hres y x hy hx
    have hz : frames.get ⟨i, hi2⟩ = zerosFrame cell_h cell_w := by
      rw [hmap i hi hi2, hres]
      rfl
    have h := hplace i hi2 y x hy hx
    rw [hz] at h
    exact h

/-- Witness for `mosaic_grid_geometry`: five accessors (four empty, the fifth
returning a 5-by-5 frame of value 7) with `cols = 2`, `cell_h = 9` (so
`cell_w = 16`) give a 27-by-32 canvas with accessor 4's content at grid cell
`(2, 0)` and the sixth grid cell blank. -/
theorem mosaic_grid_geometry_witness :
    ∃ c, mosaic_getter_grid [none, none, none, none, some frameE] 2 9 = some c ∧
      c.height = 27 ∧ c.width = 32 ∧ c.px 18 0 = 7 ∧ c.px 18 16 = 0 := by
  obtain ⟨c, hc, hlen, hh, hw, hrows, hres, hmap, hplace, hblank, hout⟩ :=
    mosaic_grid_geometry [none, none, none, none, some frameE] 2 9
      ([none, none, none, none, some frameE].map
        (fun o => o.getD (zerosFrame 9 16))) 16 rfl rfl (by norm_num) (by simp)
  have hgr : gridRows 5 2 = 3 := by
    have h : ⌈((5 : ℕ) : ℚ) / ((2 : ℕ) : ℚ)⌉ = (3 : ℤ) := by
      rw [Int.ceil_eq_iff]
      norm_num
    rw [gridRows, h]
    rfl
  refine ⟨c, hc, ?_, ?_, ?_, ?_⟩
  · rw [hh]
    simp [hgr]
  · rw [hw]
  · have h := hplace 4 (by simp) 0 0 (by norm_num) (by norm_num)
    simpa [frameE, cvResize] using h
  · have h := hout 5 (by simp) 0 0 (by norm_num) (by norm_num)
    simpa using h

/-- C6 counterexample: with a single accessor returning no frame, the grid
compositor synthesizes a blank canvas instead of returning `None` (the row
compositor does return `None` there). -/
theorem mosaic_grid_all_missing_cex :
    mosaic_getter_row [(none : Option Frame)] = none ∧
      (mosaic_getter_grid [(none : Option Frame)] 2 9).isSome = true :=
  ⟨rfl, rfl⟩

/-- C6 amended: on a non-empty list of accessors all returning no frame, the
row compositor returns `None`, but the grid compositor returns a synthesized
full-size canvas consisting entirely of blank cells (it returns `None` only
for an empty accessor list). -/
theorem mosaic_all_missing_behavior (results : List (Option Frame)) (cols cell_h : Nat)
    (hne : results ≠ []) (hall : ∀ r ∈ results, r = none) (hcols : 1 ≤ cols) :
    mosaic_getter_row results = none ∧
    ∃ c, mosaic_getter_grid results cols cell_h = some c ∧
      c.height = gridRows results.length cols * cell_h ∧
      c.width = cols * mosaicCellW cell_h ∧
      ∀ y x, c.px y x = 0 := by
  constructor
  · have hfm : results.filterMap id = [] := by
      rw [List.filterMap_eq_nil]
      intro a ha
      rw [hall a ha]
      rfl
    simp [mosaic_getter_row, hfm]
  · have hfz : ∀ f ∈ results.map
        (fun o => o.getD (zerosFrame cell_h (mosaicCellW cell_h))), ∀ y x, f.px y x = 0 := by
      intro f hf y x
      rcases List.mem_map.mp hf with ⟨o, ho, rfl⟩
      rw [hall o ho]
      rfl
    refine ⟨_, mosaic_getter_grid_eq results cols cell_h hne, ?_, rfl, ?_⟩
    · show gridRows (results.map _).length cols * cell_h = gridRows results.length cols * cell_h
      rw [List.length_map]
    · intro y x
      exact gridPlace_zero cols cell_h (mosaicCellW cell_h) _ 0 _ hfz (fun _ _ => rfl) y x

/-- Witness for `mosaic_all_missing_behavior`: two empty accessors, `cols = 2`,
`cell_h = 9`: the row compositor yields `None`, the grid compositor a blank
9-by-32 canvas. -/
theorem mosaic_all_missing_behavior_witness :
    mosaic_getter_row [(none : Option Frame), none] = none ∧
    ∃ c, mosaic_getter_grid [(none : Option Frame), none] 2 9 = some c ∧
      c.height = 9 ∧ c.width = 32 ∧ c.px 0 0 = 0 := by
  obtain ⟨hrow, c, hc, hh, hw, hz⟩ :=
    mosaic_all_missing_behavior [(none : Option Frame), none] 2 9 (by simp)
      (by intro r hr; simpa using hr) (by norm_num)
  have hgr : gridRows 2 2 = 1 := by
    have h : ⌈((2 : ℕ) : ℚ) / ((2 : ℕ) : ℚ)⌉ = (1 : ℤ) := by
      rw [Int.ceil_eq_iff]
      norm_num
    rw [gridRows, h]
    rfl
  exact ⟨hrow, c, hc, by rw [hh]; simp [hgr], by rw [hw]; rfl, hz 0 0⟩

/-- C2 counterexample: after yielding a chunk the generator sleeps
`max(0, 1.0/fps)` — the full target interval — not the remainder
`max(0, 1/fps - elapsed)`: at `fps = 12` and an elapsed frame-production time
of `1/24` s the code sleeps `1/12` s while the claimed formula gives `1/24` s
(the code's sleep does not depend on `elapsed` at all). -/
theorem mjpeg_sleep_ignores_elapsed_cex :
    (mjpegIteration (some demoFrame) true 12).2 = 1 / 12 ∧
      spec_pacing_sleep 12 (1 / 24) = 1 / 24 ∧
      (mjpegIteration (some demoFrame) true 12).2 ≠ spec_pacing_sleep 12 (1 / 24) := by
  have h1 : (mjpegIteration (some demoFrame) true 12).2 = 1 / 12 := by
    show max 0 (1 / 12 : ℚ) = 1 / 12
    rw [max_eq_right]
    norm_num
  have h2 : spec_pacing_sleep 12 (1 / 24) = 1 / 24 := by
    rw [spec_pacing_sleep, show (1 / (12 : ℚ) - 1 / 24) = 1 / 24 from by norm_num]
    rw [max_eq_right]
    norm_num
  refine ⟨h1, h2, ?_⟩
  rw [h1, h2]
  norm_num

/-- C2 amended: after yielding a chunk the generator sleeps
`max(0, 1.0/fps) = 1/fps`, the full target interval, independent of the time
spent producing the frame.  The target rate therefore remains a ceiling — the
sleep is never shorter than the spec's remainder formula — but a slow encode
degrades the achieved rate further than the remainder formula would. -/
theorem mjpeg_sleep_full_interval (fps elapsed : ℚ) (f : Frame)
    (hfps : 0 < fps) (helapsed : 0 ≤ elapsed) :
    (mjpegIteration (some f) true fps).2 = 1 / fps ∧
      spec_pacing_sleep fps elapsed ≤ (mjpegIteration (some f) true fps).2 := by
  have h1 : (mjpegIteration (some f) true fps).2 = max 0 (1 / fps) := rfl
  have hpos : (0 : ℚ) ≤ 1 / fps := by positivity
  constructor
  · rw [h1, max_eq_right hpos]
  · rw [h1, spec_pacing_sleep]
    exact max_le_max (le_refl 0) (by linarith)

/-- Witness for `mjpeg_sleep_full_interval` at `fps = 12`, `elapsed = 1/24`. -/
theorem mjpeg_sleep_full_interval_witness :
    (mjpegIteration (some demoFrame) true 12).2 = 1 / 12 ∧
      spec_pacing_sleep 12 (1 / 24) ≤ (mjpegIteration (some demoFrame) true 12).2 :=
  mjpeg_sleep_full_interval 12 (1 / 24) demoFrame (by norm_num) (by norm_num)

/-- C7 (confirmed): on every read-loop iteration where the frame read fails —
no usable handle, or a failed/empty read — and regardless of whether a
reconnect was attempted or succeeded (the environment is arbitrary), the
actor stores as its latest frame the placeholder: a solid all-zero square of
exactly `target_h` by `target_h` pixels carrying the
`"<label> (reconectando...)"` text overlay (the spec renders the string as
"(reconnecting...)").  As this holds at every failed iteration, an actor
that never connects serves this placeholder from its first failed iteration
onward. -/
theorem capture_failure_placeholder (t : CaptureModel) (env : CapEnv)
    (hrun : t.stop_flag = false)
    (hfail : t.capOpen = false ∨ env.readResult = none) :
    (capture_run_step t env).frame = some (placeholderFrame t.label t.target_h) ∧
      (placeholderFrame t.label t.target_h).height = t.target_h ∧
      (placeholderFrame t.label t.target_h).width = t.target_h ∧
      (∀ y x, (placeholderFrame t.label t.target_h).px y x = 0) ∧
      (placeholderFrame t.label t.target_h).overlays
        = [t.label ++ " (reconectando...)"] := by
  have hread : (if t.capOpen then env.readResult else none) = none := by
    rcases hfail with h | h
    · rw [h]
      rfl
    · cases hc : t.capOpen <;> simp [h]
  refine ⟨?_, rfl, rfl, fun y x => rfl, rfl⟩
  rw [capture_run_step, hrun, hread]
  simp

/-- Witness for `capture_failure_placeholder`: a freshly registered channel-3
thread at 360 px whose first read fails. -/
theorem capture_failure_placeholder_witness :
    (capture_run_step (mkCaptureThread 3 360)
        { readResult := none, tCheck := 5, tRecord := 6, openResult := false }).frame
      = some (placeholderFrame (mkCaptureThread 3 360).label 360) ∧
      (placeholderFrame (mkCaptureThread 3 360).label 360).height = 360 ∧
      (placeholderFrame (mkCaptureThread 3 360).label 360).width = 360 ∧
      (placeholderFrame (mkCaptureThread 3 360).label 360).overlays
        = [(mkCaptureThread 3 360).label ++ " (reconectando...)"] := by
  have h := capture_failure_placeholder (mkCaptureThread 3 360)
    { readResult := none, tCheck := 5, tRecord := 6, openResult := false }
    rfl (Or.inl rfl)
  exact ⟨h.1, h.2.1, h.2.2.1, h.2.2.2.2⟩

/-- C8 (confirmed): on a failed read the actor reopens the connection if and
only if at least `reconnect_delay` (default 2 s) has elapsed since `last_try`
(the code's `time.time() - last_try >= reconnect_delay_s`); when it reopens
it records the new attempt timestamp regardless of whether the reopen
produced a usable handle (`env.openResult` is arbitrary), and when the
cool-down has not elapsed neither the timestamp nor the handle changes —
so each failed read after the cool-down triggers exactly one reopen attempt,
however many failures preceded it. -/
theorem capture_reconnect_cooldown (t : CaptureModel) (env : CapEnv)
    (hrun : t.stop_flag = false)
    (hfail : t.capOpen = false ∨ env.readResult = none) :
    (t.reconnect_delay ≤ env.tCheck - t.last_try →
      (capture_run_step t env).last_try = env.tRecord ∧
      (capture_run_step t env).capOpen = env.openResult) ∧
    (env.tCheck - t.last_try < t.reconnect_delay →
      (capture_run_step t env).last_try = t.last_try ∧
      (capture_run_step t env).capOpen = t.capOpen) := by
  have hread : (if t.capOpen then env.readResult else none) = none := by
    rcases hfail with h | h
    · rw [h]
      rfl
    · cases hc : t.capOpen <;> simp [h]
  refine ⟨fun hdue => ⟨?_, ?_⟩, fun hlt => ⟨?_, ?_⟩⟩ <;>
    rw [capture_run_step, hrun, hread]
  · simp [hdue]
  · simp [hdue]
  · simp [not_le.mpr hlt]
  · simp [not_le.mpr hlt]

/-- Witness for `capture_reconnect_cooldown`: a fresh channel-7 thread
(`last_try = 0`, delay 2) failing a read at `t = 5` reopens and records
timestamp 6 with the reopened handle. -/
theorem capture_reconnect_cooldown_witness :
    (capture_run_step (mkCaptureThread 7 360)
        { readResult := none, tCheck := 5, tRecord := 6, openResult := true }).last_try = 6 ∧
    (capture_run_step (mkCaptureThread 7 360)
        { readResult := none, tCheck := 5, tRecord := 6, openResult := true }).capOpen = true := by
  have h := capture_reconnect_cooldown (mkCaptureThread 7 360)
    { readResult := none, tCheck := 5, tRecord := 6, openResult := true }
    rfl (Or.inl rfl)
  exact h.1 (by norm_num [mkCaptureThread])

theorem dictGet_dictInsert {α : Type} (d : List (Int × α)) (k : Int) (v : α) (k2 : Int) :
    dictGet (dictInsert d k v) k2 = if k = k2 then some v else dictGet d k2 := by
  induction d with
  | nil => rfl
  | cons p rest ih =>
      obtain ⟨k1, v1⟩ := p
      by_cases h1 : k1 = k
      · subst h1
        by_cases h2 : k1 = k2 <;> simp [dictInsert, dictGet, h2]
      · by_cases h2 : k1 = k2
        · subst h2
          have h3 : ¬ k = k1 := fun h => h1 h.symm
          simp [dictInsert, dictGet, h1, h3, ih]
        · simp [dictInsert, dictGet, h1, h2, ih]

/-- Helper: a channel is found in either registry built by the registration
loop exactly when it is in the remaining channel list or already present. -/
theorem dictGet_registerLoop (th : Nat) (chans : List Int)
    (d : List (Int × CaptureModel) × List (Int × CaptureModel)) (ch : Int) :
    ((dictGet (registerLoop th chans d).1 ch).isSome = true
        ↔ ch ∈ chans ∨ (dictGet d.1 ch).isSome = true) ∧
    ((dictGet (registerLoop th chans d).2 ch).isSome = true
        ↔ ch ∈ chans ∨ (dictGet d.2 ch).isSome = true) := by
  induction chans generalizing d with
  | nil => simp [registerLoop]
  | cons c rest ih =>
      rw [registerLoop]
      constructor
      · rw [(ih _).1, dictGet_dictInsert]
        by_cases h : c = ch
        · simp [h, List.mem_cons]
        · have h2 : ¬ ch = c := fun hh => h hh.symm
          simp [h, h2, List.mem_cons, or_assoc]
      · rw [(ih _).2, dictGet_dictInsert]
        by_cases h : c = ch
        · simp [h, List.mem_cons]
        · have h2 : ¬ ch = c := fun hh => h hh.symm
          simp [h, h2, List.mem_cons, or_assoc]

/-- C1 (confirmed): after any successful `start_streams` call — the channel
argument coerced to the tuple `chans` — no error is reported, the stored
config records exactly `chans`, and both registries (`STATE.getters` and
`STATE.threads`) hold exactly the requested channels: looking up a requested
channel finds an entry, looking up any other channel finds nothing, whatever
the previous state held. -/
theorem start_streams_registry_keys (st : StreamStateM) (ip user password : String)
    (channels : ChannelsArg) (subtype target_height : Nat) (chans : List Int)
    (hok : coerce_channels channels = Except.ok chans) :
    (start_streams_run st ip user password channels subtype target_height).2 = none ∧
    (start_streams_run st ip user password channels subtype target_height).1.config.channels
      = chans ∧
    ∀ ch : Int,
      ((dictGet (start_streams_run st ip user password
          channels subtype target_height).1.getters ch).isSome = true ↔ ch ∈ chans) ∧
      ((dictGet (start_streams_run st ip user password
          channels subtype target_height).1.threads ch).isSome = true ↔ ch ∈ chans) := by
  have hmain : start_streams_run st ip user password channels subtype target_height
      = ({ threads := (registerLoop target_height chans ([], [])).1,
           getters := (registerLoop target_height chans ([], [])).2,
           config := { ip := ip, user := user, password := password,
                       channels := chans, subtype := subtype,
                       target_height := target_height } }, none) := by
    rw [start_streams_run, hok]
  rw [hmain]
  refine ⟨rfl, rfl, fun ch => ?_⟩
  have h := dictGet_registerLoop target_height chans ([], []) ch
  constructor
  · simpa [dictGet] using h.2
  · simpa [dictGet] using h.1

/-- Witness for `start_streams_registry_keys`: reconfiguring the initial state
to channels `[3, 5]` presents accessors exactly for 3 and 5 (4 is absent). -/
theorem start_streams_registry_keys_witness :
    (start_streams_run StreamState.init "10.0.0.2" "admin" "pw"
        (ChannelsArg.ofSeq [PyVal.intLike 3, PyVal.intLike 5]) 0 360).2 = none ∧
    (dictGet (start_streams_run StreamState.init "10.0.0.2" "admin" "pw"
        (ChannelsArg.ofSeq [PyVal.intLike 3, PyVal.intLike 5]) 0 360).1.getters 3).isSome
      = true ∧
    (dictGet (start_streams_run StreamState.init "10.0.0.2" "admin" "pw"
        (ChannelsArg.ofSeq [PyVal.intLike 3, PyVal.intLike 5]) 0 360).1.getters 4).isSome
      = false ∧
    (dictGet (start_streams_run StreamState.init "10.0.0.2" "admin" "pw"
        (ChannelsArg.ofSeq [PyVal.intLike 3, PyVal.intLike 5]) 0 360).1.threads 5).isSome
      = true := by
  have h := start_streams_registry_keys StreamState.init "10.0.0.2" "admin" "pw"
    (ChannelsArg.ofSeq [PyVal.intLike 3, PyVal.intLike 5]) 0 360 [3, 5] rfl
  refine ⟨h.1, ?_, ?_, ?_⟩
  · exact (h.2.2 3).1.mpr (by simp)
  · have hnot : ¬ ((dictGet (start_streams_run StreamState.init "10.0.0.2" "admin" "pw"
        (ChannelsArg.ofSeq [PyVal.intLike 3, PyVal.intLike 5]) 0 360).1.getters 4).isSome
        = true) := by
      intro hh
      have := (h.2.2 4).1.mp hh
      simp at this
    exact Bool.eq_false_iff.mpr hnot
  · exact (h.2.2 5).2.mpr (by simp)

/-- Helper: a sequence containing an element `int()` rejects fails the
coercion with an error. -/
theorem coerceSeq_error_of_mem (xs : List PyVal) (hmem : PyVal.nonIntLike ∈ xs) :
    ∃ e, coerceSeq xs = Except.error e := by
  induction xs with
  | nil => cases hmem
  | cons p rest ih =>
      cases p with
      | intLike n =>
          have hm : PyVal.nonIntLike ∈ rest := by
            rcases List.mem_cons.mp hmem with h | h
            · exact PyVal.noConfusion h
            · exact h
          rcases ih hm with ⟨e, he⟩
          refine ⟨e, ?_⟩
          rw [coerceSeq, he]
          rfl
      | nonIntLike => exact ⟨_, rfl⟩

/-- C10 (confirmed): when `start_streams` receives a `channels` argument of an
unsupported type, or a sequence with an element `int()` rejects, it raises
synchronously before taking the state lock and before any mutation: the call
reports an error and the state — thread registry, accessor registry and
stored config — comes back identical, the old actors not stop-signalled. -/
theorem start_streams_invalid_channels_no_mutation (st : StreamStateM)
    (ip user password : String) (channels : ChannelsArg) (subtype target_height : Nat)
    (hbad : channels = ChannelsArg.other ∨
      ∃ xs, channels = ChannelsArg.ofSeq xs ∧ PyVal.nonIntLike ∈ xs) :
    (start_streams_run st ip user password channels subtype target_height).2.isSome = true ∧
    (start_streams_run st ip user password channels subtype target_height).1 = st := by
  have herr : ∃ e, coerce_channels channels = Except.error e := by
    rcases hbad with h | ⟨xs, hx, hmem⟩
    · refine ⟨"channels deve ser int, list, tuple ou set", ?_⟩
      rw [h]
      rfl
    · rw [hx]
      exact coerceSeq_error_of_mem xs hmem
  rcases herr with ⟨e, he⟩
  rw [start_streams_run, he]
  exact ⟨rfl, rfl⟩

/-- Witness for `start_streams_invalid_channels_no_mutation`: a channel list
containing a non-convertible element leaves the initial state untouched. -/
theorem start_streams_invalid_channels_witness :
    (start_streams_run StreamState.init "10.0.0.2" "admin" "pw"
        (ChannelsArg.ofSeq [PyVal.intLike 1, PyVal.nonIntLike]) 0 360).2.isSome = true ∧
    (start_streams_run StreamState.init "10.0.0.2" "admin" "pw"
        (ChannelsArg.ofSeq [PyVal.intLike 1, PyVal.nonIntLike]) 0 360).1 = StreamState.init :=
  start_streams_invalid_channels_no_mutation StreamState.init "10.0.0.2" "admin" "pw"
    (ChannelsArg.ofSeq [PyVal.intLike 1, PyVal.nonIntLike]) 0 360
    (Or.inr ⟨[PyVal.intLike 1, PyVal.nonIntLike], rfl,
      List.mem_cons_of_mem _ (List.mem_cons_self _ _)⟩)

theorem actorLoopStep_flag (a : ActorSt) : (actorLoopStep a).stop_flag = a.stop_flag := by
  rw [actorLoopStep]
  split <;> rfl

theorem actorLoopStep_ch (a : ActorSt) : (actorLoopStep a).ch = a.ch := by
  rw [actorLoopStep]
  split <;> rfl

theorem signalActor_flag (ch : Int) (a : ActorSt) (h : a.stop_flag = true) :
    (signalActor ch a).stop_flag = true := by
  rw [signalActor]
  split
  · rfl
  · exact h

theorem stepOld_flags (s : SessionSys)
    (hs : ∀ a ∈ s.oldActors, a.stop_flag = true) :
    ∀ a ∈ ({ s with oldActors := s.oldActors.map actorLoopStep } : SessionSys).oldActors,
      a.stop_flag = true := by
  intro a ha
  have ha' : a ∈ s.oldActors.map actorLoopStep := ha
  rcases List.mem_map.mp ha' with ⟨b, hb, rfl⟩
  rw [actorLoopStep_flag]
  exact hs b hb

theorem applySessionOp_flags (s : SessionSys) (op : SessionOp)
    (hs : ∀ a ∈ s.oldActors, a.stop_flag = true) :
    ∀ a ∈ (applySessionOp s op).oldActors, a.stop_flag = true := by
  cases op with
  | signalStop ch =>
      intro a ha
      have ha' : a ∈ s.oldActors.map (signalActor ch) := ha
      rcases List.mem_map.mp ha' with ⟨b, hb, rfl⟩
      exact signalActor_flag ch b (hs b hb)
  | clearThreads => exact hs
  | clearGetters => exact hs
  | updateConfig => exact hs
  | startActor ch => exact hs

theorem ite_flags (s : SessionSys) (b : Bool)
    (hs : ∀ a ∈ s.oldActors, a.stop_flag = true) :
    ∀ a ∈ (if b = true then { s with oldActors := s.oldActors.map actorLoopStep }
        else s).oldActors, a.stop_flag = true := by
  split
  · exact stepOld_flags s hs
  · exact hs

theorem ite_startedNew (s : SessionSys) (b : Bool) :
    (if b = true then { s with oldActors := s.oldActors.map actorLoopStep }
        else s).startedNew = s.startedNew := by
  split <;> rfl

/-- Helper: once every old thread has its stop flag set, it stays set through
any further controller ops and thread scheduling. -/
theorem runSession_flags_preserved (ops : List SessionOp) (sched : Nat → Bool) (i : Nat)
    (s : SessionSys) (hs : ∀ a ∈ s.oldActors, a.stop_flag = true) :
    ∀ a ∈ (runSession sched i s ops).1.oldActors, a.stop_flag = true := by
  induction ops generalizing i s with
  | nil => exact hs
  | cons op rest ih =>
      have hs1 := ite_flags s (sched i) hs
      have hs2 := applySessionOp_flags _ op hs1
      cases op <;> exact ih (i + 1) _ hs2

/-- Helper: once every old thread has its stop flag set, no later op can
start a new thread against an unsignalled old one. -/
theorem runSession_bad_false (ops : List SessionOp) (sched : Nat → Bool) (i : Nat)
    (s : SessionSys) (hs : ∀ a ∈ s.oldActors, a.stop_flag = true) :
    (runSession sched i s ops).2 = false := by
  induction ops generalizing i s with
  | nil => rfl
  | cons op rest ih =>
      have hs1 := ite_flags s (sched i) hs
      have hs2 := applySessionOp_flags _ op hs1
      have hrec := ih (i + 1) _ hs2
      cases op with
      | startActor ch =>
          simp only [runSession]
          rw [Bool.or_eq_false_iff]
          refine ⟨?_, hrec⟩
          rw [List.any_eq_false]
          intro a ha
          rw [hs1 a ha]
          simp
      | signalStop ch => simpa [runSession] using hrec
      | clearThreads => simpa [runSession] using hrec
      | clearGetters => simpa [runSession] using hrec
      | updateConfig => simpa [runSession] using hrec

/-- Helper: op sequences containing no thread start report no violation. -/
theorem runSession_bad_false_nostart (ops : List SessionOp) (sched : Nat → Bool) (i : Nat)
    (s : SessionSys) (h : ∀ op ∈ ops, ∀ ch, op ≠ SessionOp.startActor ch) :
    (runSession sched i s ops).2 = false := by
  induction ops generalizing i s with
  | nil => rfl
  | cons op rest ih =>
      have hop := h op (List.mem_cons_self _ _)
      have hrest : ∀ o ∈ rest, ∀ ch, o ≠ SessionOp.startActor ch :=
        fun o ho => h o (List.mem_cons_of_mem _ ho)
      cases op with
      | startActor ch => exact absurd rfl (hop ch)
      | signalStop ch => simpa [runSession] using ih (i + 1) _ hrest
      | clearThreads => simpa [runSession] using ih (i + 1) _ hrest
      | clearGetters => simpa [runSession] using ih (i + 1) _ hrest
      | updateConfig => simpa [runSession] using ih (i + 1) _ hrest

/-- Helper: op sequences containing no thread start leave `startedNew`
unchanged. -/
theorem runSession_startedNew_nostart (ops : List SessionOp) (sched : Nat → Bool) (i : Nat)
    (s : SessionSys) (h : ∀ op ∈ ops, ∀ ch, op ≠ SessionOp.startActor ch) :
    (runSession sched i s ops).1.startedNew = s.startedNew := by
  induction ops generalizing i s with
  | nil => rfl
  | cons op rest ih =>
      have hop := h op (List.mem_cons_self _ _)
      have hrest : ∀ o ∈ rest, ∀ ch, o ≠ SessionOp.startActor ch :=
        fun o ho => h o (List.mem_cons_of_mem _ ho)
      cases op with
      | startActor ch => exact absurd rfl (hop ch)
      | signalStop ch =>
          simp only [runSession]
          rw [ih (i + 1) _ hrest]
          rw [show ∀ X : SessionSys, (applySessionOp X (SessionOp.signalStop ch)).startedNew
            = X.startedNew from fun X => rfl]
          exact ite_startedNew s (sched i)
      | clearThreads =>
          simp only [runSession]
          rw [ih (i + 1) _ hrest]
          exact ite_startedNew s (sched i)
      | clearGetters =>
          simp only [runSession]
          rw [ih (i + 1) _ hrest]
          exact ite_startedNew s (sched i)
      | updateConfig =>
          simp only [runSession]
          rw [ih (i + 1) _ hrest]
          exact ite_startedNew s (sched i)

/-- Helper: the start segment appends exactly the new channels, in order. -/
theorem runSession_startedNew_start (chs : List Int) (sched : Nat → Bool) (i : Nat)
    (s : SessionSys) :
    (runSession sched i s (chs.map SessionOp.startActor)).1.startedNew
      = s.startedNew ++ chs := by
  induction chs generalizing i s with
  | nil => simp [runSession]
  | cons c rest ih =>
      simp only [List.map_cons, runSession]
      rw [ih (i + 1) _]
      rw [show ∀ X : SessionSys, (applySessionOp X (SessionOp.startActor c)).startedNew
        = X.startedNew ++ [c] from fun X => rfl]
      rw [ite_startedNew s (sched i)]
      simp

/-- Helper: after the `stop_all_locked` segment every old thread whose
channel was in the old channel list carries its stop flag. -/
theorem runSession_signal_flags (chs : List Int) (sched : Nat → Bool) (i : Nat)
    (s : SessionSys)
    (hs : ∀ a ∈ s.oldActors, a.stop_flag = true ∨ a.ch ∈ chs) :
    ∀ a ∈ (runSession sched i s (chs.map SessionOp.signalStop)).1.oldActors,
      a.stop_flag = true := by
  induction chs generalizing i s with
  | nil =>
      intro a ha
      rcases hs a ha with h | h
      · exact h
      · cases h
  | cons c rest ih =>
      simp only [List.map_cons, runSession]
      apply ih
      intro a ha
      have ha' : a ∈ (if sched i = true then
          { s with oldActors := s.oldActors.map actorLoopStep }
          else s).oldActors.map (signalActor c) := ha
      rcases List.mem_map.mp ha' with ⟨b, hb, rfl⟩
      have hb' : b.stop_flag = true ∨ b.ch ∈ c :: rest := by
        revert hb
        split
        · intro hb
          have hb2 : b ∈ s.oldActors.map actorLoopStep := hb
          rcases List.mem_map.mp hb2 with ⟨b0, hb0, rfl⟩
          rcases hs b0 hb0 with h | h
          · rw [actorLoopStep_flag]
            exact Or.inl h
          · rw [actorLoopStep_ch]
            exact Or.inr h
        · intro hb
          exact hs b hb
      by_cases hc : b.ch = c
      · left
        rw [signalActor, if_pos hc]
      · have hsb : signalActor c b = b := by
          rw [signalActor, if_neg hc]
        rw [hsb]
        rcases hb' with h | h
        · exact Or.inl h
        · rcases List.mem_cons.mp h with h1 | h1
          · exact absurd h1 hc
          · exact Or.inr h1

/-- Helper: an interleaved run splits along concatenation of op lists. -/
theorem runSession_append (sched : Nat → Bool) (l1 l2 : List SessionOp) (i : Nat)
    (s : SessionSys) :
    runSession sched i s (l1 ++ l2)
      = ((runSession sched (i + l1.length) (runSession sched i s l1).1 l2).1,
         ((runSession sched i s l1).2
           || (runSession sched (i + l1.length) (runSession sched i s l1).1 l2).2)) := by
  induction l1 generalizing i s with
  | nil => simp [runSession]
  | cons op t ih =>
      simp only [List.cons_append, runSession, List.length_cons, List.append_eq]
      rw [ih (i + 1) _]
      have harith : i + (t.length + 1) = i + 1 + t.length := by omega
      rw [harith]
      simp [Bool.or_assoc]

/-- C9 counterexample: `start_streams` never joins the old threads, so there
is a permitted execution (here: the OS never schedules the old capture
thread during the call) in which the call completes — the new channel-2
thread started, registries rebuilt — while the old channel-1 thread has its
stop flag set but has NOT observed it and NOT exited its loop.  Since
`exited` only changes when the old thread itself runs, the old actor had not
exited when the new one was started, contradicting the claim that shutdown
completes before any new capture actor starts. -/
theorem start_streams_no_join_cex :
    (runSession (fun _ => false) 0 (initSys [1]) (start_streams_ops [1] [2])).1.startedNew
      = [2] ∧
    (runSession (fun _ => false) 0 (initSys [1]) (start_streams_ops [1] [2])).1.oldActors
      = [{ ch := 1, stop_flag := true, exited := false }] :=
  ⟨rfl, rfl⟩

/-- C9 amended: in every execution of `start_streams` (any interleaving of
the old capture threads with the controller), every old thread is
stop-signalled — its flag set and its handle released — strictly before any
new thread is started (the violation detector stays `false`), the new
threads are exactly the requested ones in order, and at return every old
thread carries its stop flag; but the call does not wait for the old threads
to exit their loops (see the counterexample). -/
theorem start_streams_stop_before_start (oldChs newChs : List Int)
    (sched : Nat → Bool) (i0 : Nat) :
    (runSession sched i0 (initSys oldChs) (start_streams_ops oldChs newChs)).2 = false ∧
    (runSession sched i0 (initSys oldChs)
      (start_streams_ops oldChs newChs)).1.startedNew = newChs ∧
    ∀ a ∈ (runSession sched i0 (initSys oldChs)
      (start_streams_ops oldChs newChs)).1.oldActors, a.stop_flag = true := by
  have hinit : ∀ a ∈ (initSys oldChs).oldActors, a.stop_flag = true ∨ a.ch ∈ oldChs := by
    intro a ha
    have ha' : a ∈ oldChs.map
        (fun ch => ({ ch := ch, stop_flag := false, exited := false } : ActorSt)) := ha
    rcases List.mem_map.mp ha' with ⟨c, hc, rfl⟩
    exact Or.inr hc
  have hns2 : ∀ op ∈ [SessionOp.clearThreads, SessionOp.clearGetters, SessionOp.updateConfig],
      ∀ ch, op ≠ SessionOp.startActor ch := by
    intro op hop ch h
    subst h
    simp at hop
  have hops : start_streams_ops oldChs newChs
      = oldChs.map SessionOp.signalStop
        ++ ([SessionOp.clearThreads, SessionOp.clearGetters, SessionOp.updateConfig]
            ++ newChs.map SessionOp.startActor) := by
    rw [start_streams_ops, List.append_assoc]
  have hflags1 := runSession_signal_flags oldChs sched i0 (initSys oldChs) hinit
  have hsn1 := runSession_startedNew_nostart (oldChs.map SessionOp.signalStop) sched i0
    (initSys oldChs)
    (by
      intro op hop ch h
      rcases List.mem_map.mp hop with ⟨c, hc, hco⟩
      rw [h] at hco
      exact SessionOp.noConfusion hco)
  have hbad1 := runSession_bad_false_nostart (oldChs.map SessionOp.signalStop) sched i0
    (initSys oldChs)
    (by
      intro op hop ch h
      rcases List.mem_map.mp hop with ⟨c, hc, hco⟩
      rw [h] at hco
      exact SessionOp.noConfusion hco)
  rw [hops, runSession_append]
  refine ⟨?_, ?_, ?_⟩
  · show (_ || _) = false
    rw [Bool.or_eq_false_iff]
    exact ⟨hbad1, runSession_bad_false _ sched _ _ hflags1⟩
  · show (runSession sched _ _ _).1.startedNew = newChs
    rw [runSession_append]
    show (runSession sched _ _ (newChs.map SessionOp.startActor)).1.startedNew = newChs
    rw [runSession_startedNew_start]
    rw [runSession_startedNew_nostart _ sched _ _ hns2, hsn1]
    rfl
  · show ∀ a ∈ (runSession sched _ _ _).1.oldActors, a.stop_flag = true
    exact runSession_flags_preserved _ sched _ _ hflags1

/-- Witness for `start_streams_stop_before_start` at old channels `[1]`, new
channels `[2]`, under the never-scheduled interleaving. -/
theorem start_streams_stop_before_start_witness :
    (runSession (fun _ => false) 0 (initSys [1]) (start_streams_ops [1] [2])).2 = false ∧
    (runSession (fun _ => false) 0 (initSys [1])
      (start_streams_ops [1] [2])).1.startedNew = [2] ∧
    ∀ a ∈ (runSession (fun _ => false) 0 (initSys [1])
      (start_streams_ops [1] [2])).1.oldActors, a.stop_flag = true :=
  start_streams_stop_before_start [1] [2] (fun _ => false) 0
